import Mathlib

/- Shallow embedding of the batched external-API orchestration layer of the
   LangChain-Monitor repository:
   - src/preprocess/send_github_issues_to_llm.py   (Gemini batch relabeling)
   - src/preprocess/summarize_github_issues.py     (BART summarization)
   - src/preprocess/generate_business_tech_insights.py (Ollama insight parsing)
   Python integers are modelled as Nat (the counters never need negatives in
   the reachable states; the invariant claim additionally uses Int to make
   non-negativity a real statement).  Python dictionaries holding JSONL
   records are modelled by the Record structure, whose Option-valued
   category_llm field mirrors presence of the "category_llm" key.  Clock
   values are Nat seconds; the run models are evaluated at a fixed clock, so
   the 24-hour day-reset branch of check_and_wait_for_rate_limit is not
   taken. -/

/-! Configuration constants, verbatim from the sources. -/

def RATE_LIMIT_RPM : Nat := 10

def RATE_LIMIT_RPD : Nat := 1500

def MAX_RETRIES : Nat := 3

def INITIAL_RETRY_DELAY : Nat := 1

/-- Batch size of send_github_issues_to_llm.py (`BATCH_SIZE = 3`). -/
def BATCH_SIZE : Nat := 3

/-- summarize_github_issues.py: `TIME_WINDOW = 300` (5 minutes). -/
def TIME_WINDOW : Nat := 300

/-- summarize_github_issues.py: `RATE_LIMIT = 100` requests per window. -/
def RATE_LIMIT : Nat := 100

def CATEGORIES : List String := ["bug", "feature", "question", "other"]

/-! Rate limiter of summarize_github_issues.py (timestamp-list window). -/

/-- The purge step of check_and_wait_for_rate_limit:
`request_times = [t for t in request_times if current_time - t < TIME_WINDOW]`. -/
def purgeOld (now : Nat) (times : List Nat) : List Nat :=
  times.filter (fun t => decide (now - t < TIME_WINDOW))

/-- The wait imposed by check_and_wait_for_rate_limit of
summarize_github_issues.py: after purging, if the recorded count reaches
RATE_LIMIT the caller sleeps `TIME_WINDOW - (current_time - oldest) + 1`
seconds, otherwise it proceeds immediately (wait 0). -/
def admitWait (now : Nat) (times : List Nat) : Nat :=
  match purgeOld now times with
  | [] => 0
  | oldest :: rest =>
    if RATE_LIMIT ≤ (oldest :: rest).length then TIME_WINDOW - (now - oldest) + 1 else 0

/-! Rate limiter of send_github_issues_to_llm.py (minute counter).  The state
is the pair of module globals request_count_minute / last_request_time. -/

structure MinuteState where
  count : Nat
  lastReq : Nat
deriving DecidableEq, Repr

/-- The minute-window wait of check_and_wait_for_rate_limit of
send_github_issues_to_llm.py: `time_since_last = now - last_request_time if
last_request_time > 0 else 60`; a wait of `60 - time_since_last + 1` is
imposed exactly when the window is still open and the counter has reached
RATE_LIMIT_RPM. -/
def waitMinute (now : Nat) (st : MinuteState) : Nat :=
  let tsl := if 0 < st.lastReq then now - st.lastReq else 60
  if tsl < 60 then
    if RATE_LIMIT_RPM ≤ st.count then 60 - tsl + 1 else 0
  else 0

/-! The three operations performed on the request_count_minute /
request_count_day globals, over Int so that non-negativity is a statement
about the program rather than about the type. -/

inductive CounterOp where
  | record
  | rollback
  | reset
deriving DecidableEq, Repr

/-- record: `request_count += 1` (lines 218-219); rollback: the 429 handler
`request_count = max(0, request_count - 1)` (lines 261-262); reset:
`request_count = 0` (lines 70, 86, 90). -/
def applyCounterOp (c : Int) : CounterOp → Int
  | .record => c + 1
  | .rollback => max 0 (c - 1)
  | .reset => 0

/-! Substring search, modelling Python's `in` operator and `re.search` with a
plain-word pattern. -/

/-- `containsSeq w l` holds when `w` occurs contiguously inside `l`
(Python `w in line`). -/
def containsSeq (w : List Char) : List Char → Bool
  | [] => w.isEmpty
  | c :: rest => List.isPrefixOf w (c :: rest) || containsSeq w rest

/-! Text utilities shared by the parsers.  Python strings are modelled as
lists of characters; str.strip and the `\s` class are modelled over the
ASCII whitespace characters. -/

def isPySpace (c : Char) : Bool :=
  c = ' ' || c = '\t' || c = '\n' || c = '\r' || c = '\x0b' || c = '\x0c'

/-- Python str.strip(). -/
def pyStrip (l : List Char) : List Char :=
  ((l.dropWhile isPySpace).reverse.dropWhile isPySpace).reverse

/-- Python str.lower() / the case folding performed by re.IGNORECASE
against an all-lowercase pattern. -/
def lowerChars (l : List Char) : List Char := l.map Char.toLower

/-- Push a character onto the first segment of a split-in-progress. -/
def prependChar (c : Char) : List (List Char) → List (List Char)
  | [] => [[c]]
  | s :: ss => (c :: s) :: ss

/-- Python text.split('\n'). -/
def splitOnNL : List Char → List (List Char)
  | [] => [[]]
  | c :: rest =>
    if c = '\n' then [] :: splitOnNL rest else prependChar c (splitOnNL rest)

/-! Label parser of classify_issues_batch (send_github_issues_to_llm.py,
lines 228-245). -/

/-- The per-line category extraction: strip and lowercase every line of the
response, drop blank lines, and for each line take the first category of
CATEGORIES occurring in it as a substring. -/
def extractCats (llmText : String) : List String :=
  let lines := ((splitOnNL (pyStrip llmText.data)).map
    (fun l => lowerChars (pyStrip l))).filter (fun l => !l.isEmpty)
  lines.filterMap (fun line => CATEGORIES.find? (fun c => containsSeq c.data line))

/-- Full successful parse path: extract categories, pad with "other" while
shorter than the batch, then slice to the batch length. -/
def parseCategories (llmText : String) (n : Nat) : List String :=
  let categories := extractCats llmText
  (categories ++ List.replicate (n - categories.length) "other").take n

/-! Retry loop of classify_issues_batch (lines 197-285).  The environment is
the list of responses the API would give to the successive attempts. -/

structure Counters where
  minute : Nat
  day : Nat
deriving DecidableEq, Repr

/-- One response as classified by the status dispatch of the retry loop:
ok = HTTP 200 with the generated text extracted successfully, parseFail =
HTTP 200 whose body lacks the candidates/content/parts shape, status429 =
HTTP 429, statusOther = any other non-200 status, exn = requests exception. -/
inductive Resp where
  | ok (text : String)
  | parseFail
  | status429
  | statusOther (code : Nat)
  | exn
deriving DecidableEq, Repr

structure AttemptOut where
  result : Option (List String)
  counters : Counters
  requests : Nat
  sleeps : List Nat
deriving DecidableEq, Repr

/-- `delay = INITIAL_RETRY_DELAY * (2 ** attempt)` (lines 250, 270, 279). -/
def backoffDelay (attempt : Nat) : Nat := INITIAL_RETRY_DELAY * 2 ^ attempt

/-- Counter update after each request (lines 218-219). -/
def bumped (c : Counters) : Counters := ⟨c.minute + 1, c.day + 1⟩

/-- The 429 handler's `max(0, count - 1)` (lines 261-262); Nat subtraction
is exactly `max 0 (x - 1)` on non-negative values. -/
def rollback429 (c : Counters) : Counters := ⟨c.minute - 1, c.day - 1⟩

/-- The `for attempt in range(MAX_RETRIES)` loop of classify_issues_batch.
Returns the parsed categories (or none for the `[None] * len(issues_batch)`
failure marker), the counters after the loop, the number of HTTP requests
issued, and the sleeps performed in order (backoff delays and 429
cooldowns).  A 429 sleeps 60 s, rolls the freshly-incremented counters back
and retries without an additional backoff sleep; every other failure
(parse error, other status, exception) retries after `backoffDelay attempt`
while attempts remain. -/
def runAttempts (batchLen : Nat) : Nat → List Resp → Counters → AttemptOut
  | _, [], c => ⟨none, c, 0, []⟩
  | attempt, r :: rest, c =>
    if MAX_RETRIES ≤ attempt then ⟨none, c, 0, []⟩
    else
      let c1 := bumped c
      match r with
      | .ok text => ⟨some (parseCategories text batchLen), c1, 1, []⟩
      | .parseFail =>
        if attempt < MAX_RETRIES - 1 then
          let o := runAttempts batchLen (attempt + 1) rest c1
          ⟨o.result, o.counters, o.requests + 1, backoffDelay attempt :: o.sleeps⟩
        else ⟨none, c1, 1, []⟩
      | .status429 =>
        let c2 := rollback429 c1
        if attempt < MAX_RETRIES - 1 then
          let o := runAttempts batchLen (attempt + 1) rest c2
          ⟨o.result, o.counters, o.requests + 1, 60 :: o.sleeps⟩
        else ⟨none, c2, 1, [60]⟩
      | .statusOther _ =>
        if attempt < MAX_RETRIES - 1 then
          let o := runAttempts batchLen (attempt + 1) rest c1
          ⟨o.result, o.counters, o.requests + 1, backoffDelay attempt :: o.sleeps⟩
        else ⟨none, c1, 1, []⟩
      | .exn =>
        if attempt < MAX_RETRIES - 1 then
          let o := runAttempts batchLen (attempt + 1) rest c1
          ⟨o.result, o.counters, o.requests + 1, backoffDelay attempt :: o.sleeps⟩
        else ⟨none, c1, 1, []⟩

/-! query_bart of summarize_github_issues.py (the second, effective
definition, lines 164-212).  The response is abstracted by its status and,
for HTTP 200, by the optional summary_text field of the parsed body. -/

structure BartResp where
  status : Nat
  summaryText : Option String
deriving DecidableEq, Repr

/-- query_bart: empty or short inputs return early without touching the
window; otherwise check_and_wait_for_rate_limit purges the window, the
request is made and `request_times.append(time.time())` runs for every
status, then the status dispatch returns the summary (200), a truncated
echo of the input (400) or None (anything else, 429 included).  Returns the
result together with the request_times list after the call. -/
def query_bart (text : List Char) (now : Nat) (times : List Nat) (resp : BartResp) :
    Option (List Char) × List Nat :=
  if (pyStrip text).isEmpty then (some [], times)
  else if (pyStrip text).length < 50 then (some (pyStrip text), times)
  else
    let timesP := purgeOld now times
    let t := if 4000 < text.length then text.take 4000 ++ "...".data else text
    let times1 := timesP ++ [now]
    if resp.status = 200 then (some ((resp.summaryText.map String.data).getD []), times1)
    else if resp.status = 400 then
      (some (if t.length < 200 then t else t.take 200), times1)
    else (none, times1)

/-! Records and the main scheduler loop of send_github_issues_to_llm.py. -/

structure Record where
  title : String
  body_clean : String
  labels : List String
  category : String
  category_llm : Option String
deriving DecidableEq, Repr

def defaultRecord : Record := ⟨"", "", [], "", none⟩

/-- needs_relabel (lines 10-24); records are well-typed, so the
`isinstance` guard is always satisfied. -/
def needs_relabel (labels : List String) (category : String) : Bool :=
  if labels.isEmpty then true
  else if 1 < labels.length then true
  else if category = "other" then true
  else false

/-- needs_relabel_check of main (lines 295-299): records already carrying
the category_llm key are skipped. -/
def needs_relabel_check (r : Record) : Bool :=
  if r.category_llm.isSome then false
  else needs_relabel r.labels r.category

/-- `[(i, r) for i, r in enumerate(records) if needs_relabel_check(r)]`
(line 330), with `i` starting at the given offset. -/
def pendingAux : Nat → List Record → List (Nat × Record)
  | _, [] => []
  | i, r :: rest =>
    if needs_relabel_check r then (i, r) :: pendingAux (i + 1) rest
    else pendingAux (i + 1) rest

def pendingPairs (records : List Record) : List (Nat × Record) :=
  pendingAux 0 records

/-- Slicing `records_needing_relabel[batch_start : batch_start + BATCH_SIZE]`
for `batch_start in range(0, len, BATCH_SIZE)` with BATCH_SIZE = 3. -/
def toBatches : List (Nat × Record) → List (List (Nat × Record))
  | [] => []
  | [a] => [[a]]
  | [a, b] => [[a, b]]
  | a :: b :: c :: rest => [a, b, c] :: toBatches rest

/-- `records[idx]["category_llm"] = category`. -/
def setLLM (cat : String) (r : Record) : Record := { r with category_llm := some cat }

def modifyAt : List Record → Nat → (Record → Record) → List Record
  | [], _, _ => []
  | r :: rest, 0, f => f r :: rest
  | r :: rest, n + 1, f => r :: modifyAt rest n f

/-- `for (idx, _), category in zip(batch, categories): records[idx][...] = category`
(lines 346-349); all categories of a successful parse are truthy. -/
def applyBatchResult (recs : List Record) (pairs : List ((Nat × Record) × String)) :
    List Record :=
  pairs.foldl (fun acc pr => modifyAt acc pr.1.1 (setLLM pr.2)) recs

structure RunState where
  records : List Record
  counters : Counters
  apiRequests : Nat
  batchIters : Nat
  snapshots : List (List Record)
deriving DecidableEq, Repr

/-- Merge one batch's outcome onto the records: a successful parse updates
the zipped positions, the `[None] * len` marker updates nothing. -/
def stepRecords (records : List Record) (b : List (Nat × Record))
    (res : Option (List String)) : List Record :=
  match res with
  | some cats => applyBatchResult records (b.zip cats)
  | none => records

/-- One iteration of the batch loop on the non-exhausted path: run the retry
loop for this batch, merge its result, count the requests, and persist the
full record list. -/
def stepState (env : List (List Resp)) (b : List (Nat × Record)) (s : RunState) :
    RunState :=
  let o := runAttempts b.length 0 (env.headD []) s.counters
  let recs := stepRecords s.records b o.result
  ⟨recs, o.counters, s.apiRequests + o.requests, s.batchIters + 1,
    s.snapshots ++ [recs]⟩

/-- The batch loop of main (lines 335-357) at a fixed clock.  Each iteration
first performs the daily-cap check of check_and_wait_for_rate_limit (lines
73-76): when the cap is reached classify_issues_batch returns the
`[None] * len` marker without issuing a request, and the loop nevertheless
continues to the next batch after persisting.  Otherwise the iteration is
stepState: retry loop, result merge, request accounting, persist. -/
def runBatchLoop : List (List Resp) → List (List (Nat × Record)) → RunState → RunState
  | _, [], s => s
  | env, b :: bs, s =>
    if RATE_LIMIT_RPD ≤ s.counters.day then
      runBatchLoop env.tail bs
        { s with batchIters := s.batchIters + 1, snapshots := s.snapshots ++ [s.records] }
    else
      runBatchLoop env.tail bs (stepState env b s)

/-- main (lines 288-362) on the resume path (the accuracy gate is skipped
when resuming, lines 315-322): records are the list loaded from the output
file; if no record needs relabeling the run returns before writing anything
(line 310), otherwise the batch loop processes the pending pairs. -/
def runMain (env : List (List Resp)) (records : List Record) (c0 : Counters) : RunState :=
  let pending := pendingPairs records
  if pending.isEmpty then ⟨records, c0, 0, 0, []⟩
  else runBatchLoop env (toBatches pending) ⟨records, c0, 0, 0, []⟩

/-- Core (non-result) fields of two records agree. -/
def sameCore (a b : Record) : Prop :=
  a.title = b.title ∧ a.body_clean = b.body_clean ∧ a.labels = b.labels ∧
    a.category = b.category

/-- `Preserves orig cur`: cur is the original record list in its original
order, where each record's core fields are untouched and a record that
already carried category_llm still carries the same value. -/
def Preserves (orig cur : List Record) : Prop :=
  cur.length = orig.length ∧
  ∀ j, j < orig.length →
    sameCore (cur.getD j defaultRecord) (orig.getD j defaultRecord) ∧
    ((orig.getD j defaultRecord).category_llm.isSome = true →
      (cur.getD j defaultRecord).category_llm = (orig.getD j defaultRecord).category_llm)

/-- A pending pair is a position of the original list whose record does not
yet carry category_llm. -/
def GoodPair (orig : List Record) (p : Nat × Record) : Prop :=
  p.1 < orig.length ∧ orig.getD p.1 defaultRecord = p.2 ∧ p.2.category_llm = none

/-! parse_insights of generate_business_tech_insights.py (lines 74-152).
Lines are lists of characters; regex patterns over plain words, `\\s` and
`\\d` are modelled by structural matchers over ASCII. -/

/-- Match `\\s+w` at the start of the list: one or more whitespace
characters followed by the word `w`. -/
def wsThenWord (w : List Char) : List Char → Bool
  | [] => false
  | c :: rest => isPySpace c && (List.isPrefixOf w rest || wsThenWord w rest)

/-- `re.search(w1 + r'\\s+' + w2, line)` for plain words w1, w2: the pattern
may start at any position. -/
def searchWordWsWord (w1 w2 : List Char) : List Char → Bool
  | [] => false
  | c :: rest =>
    (List.isPrefixOf w1 (c :: rest) && wsThenWord w2 (List.drop w1.length (c :: rest)))
      || searchWordWsWord w1 w2 rest

/-- `re.match(w1 + r'\\s+' + w2, text)`: anchored at the start. -/
def startsWordWsWord (w1 w2 : List Char) (l : List Char) : Bool :=
  List.isPrefixOf w1 l && wsThenWord w2 (List.drop w1.length l)

/-- Match `\\s+\\d` at the start of the list. -/
def wsThenDigit : List Char → Bool
  | [] => false
  | c :: rest => isPySpace c && ((rest.headD ' ').isDigit || wsThenDigit rest)

def backtickChar : Char := Char.ofNat 96

/-- Push a run of characters onto the first segment of a
split-in-progress. -/
def prependChars (xs : List Char) : List (List Char) → List (List Char)
  | [] => [xs]
  | s :: ss => (xs ++ s) :: ss

/-- Split at every occurrence of three consecutive backticks, scanning left
to right without overlap (Python text.split on the triple backtick); the
first argument counts the pending run of consecutive backticks seen. -/
def splitTicksAux : Nat → List Char → List (List Char)
  | pend, [] => [List.replicate pend backtickChar]
  | pend, c :: rest =>
    if c = backtickChar then
      if pend = 2 then [] :: splitTicksAux 0 rest
      else splitTicksAux (pend + 1) rest
    else prependChars (List.replicate pend backtickChar ++ [c]) (splitTicksAux 0 rest)

def splitTicks (l : List Char) : List (List Char) := splitTicksAux 0 l

/-- After splitting on the triple-backtick delimiter,
`re.sub(r'\x60\x60\x60.*?\x60\x60\x60', '', text, flags=re.DOTALL)` drops
every segment enclosed by a matched pair of delimiters and keeps the
trailing segment of an unmatched delimiter. -/
def dropPairedSegs : List (List Char) → List (List Char)
  | [] => []
  | [a] => [a]
  | [a, b] => [a, b]
  | a :: _ :: c :: rest => a :: dropPairedSegs (c :: rest)

/-- The two re.sub cleanup passes of parse_insights: remove markdown code
blocks, then remove every remaining backtick character.  (An unmatched
trailing delimiter survives the first pass in Python but its backticks are
deleted by the second, which is what the composition below produces.) -/
def cleanRaw (raw : List Char) : List Char :=
  ((dropPairedSegs (splitTicks raw)).flatten).filter (fun c => !(c = backtickChar))

/-- `lines = text.split('\n')` over the cleaned text. -/
def insightLines (raw : List Char) : List (List Char) := splitOnNL (cleanRaw raw)

/-- `re.match(r'^(\\d+)[\\.\\)\\-\\:]\\s*(.+)$', line)`, returning group(2):
one or more digits, a punctuation mark, optional whitespace, then at least
one character (when the greedy `\\s*` leaves none, the regex backtracks to
hand the final whitespace character to the capture). -/
def numberedItem (l : List Char) : Option (List Char) :=
  let ds := l.takeWhile Char.isDigit
  if ds.isEmpty then none
  else
    match l.drop ds.length with
    | [] => none
    | p :: rest =>
      if p = '.' || p = ')' || p = '-' || p = ':' then
        match rest.dropWhile isPySpace with
        | [] =>
          match rest.reverse with
          | [] => none
          | c :: _ => some [c]
        | r :: rs => some (r :: rs)
      else none

def allDots (l : List Char) : Bool := l.all (fun c => c = '.')

/-- is_placeholder (lines 100-106) over the lowered, stripped insight text:
the six placeholder_patterns in order. -/
def isPlaceholder (l : List Char) : Bool :=
  let t := pyStrip (lowerChars l)
  (t == "[insight here]".data)
    || (match t with
        | '[' :: rest =>
          (match rest.reverse with
           | [] => false
           | c :: _ => c = ']')
        | _ => false)
    || (3 ≤ t.length && allDots t)
    || startsWordWsWord "insert".data "insight".data t
    || startsWordWsWord "add".data "insight".data t
    || (List.isPrefixOf "insight".data t && wsThenDigit (t.drop 7))

inductive Sect where
  | business
  | technical
deriving DecidableEq, Repr

structure ParseAcc where
  sect : Option Sect
  business : List (List Char)
  technical : List (List Char)
deriving DecidableEq, Repr

/-- `if insight and len(insight) > 10 and not is_placeholder(insight)`. -/
def keepInsight (insight : List Char) : Bool :=
  !insight.isEmpty && 10 < insight.length && !isPlaceholder insight

def pushInsight (acc : ParseAcc) (s : Sect) (insight : List Char) : ParseAcc :=
  match s with
  | .business => { acc with business := acc.business ++ [insight] }
  | .technical => { acc with technical := acc.technical ++ [insight] }

/-- One line of the strict numbered-format pass (lines 108-128). -/
def strictStep (acc : ParseAcc) (rawLine : List Char) : ParseAcc :=
  let line := pyStrip rawLine
  if searchWordWsWord "business".data "insight".data (lowerChars line) then
    { acc with sect := some .business }
  else if searchWordWsWord "technical".data "insight".data (lowerChars line) then
    { acc with sect := some .technical }
  else
    match numberedItem line, acc.sect with
    | some g2, some s =>
      let insight := pyStrip g2
      if keepInsight insight then pushInsight acc s insight else acc
    | _, _ => acc

def strictPass (lines : List (List Char)) : List (List Char) × List (List Char) :=
  let r := lines.foldl strictStep ⟨none, [], []⟩
  (r.business, r.technical)

/-- `line.startswith(('-', 'â€¢', '*'))`; the middle alternative is the
three-character mojibake bullet literal of the source. -/
def bulletStart (l : List Char) : Bool :=
  List.isPrefixOf "-".data l
    || List.isPrefixOf ['â', '€', '¢'] l
    || List.isPrefixOf "*".data l

/-- One line of the looser bullet-scan fallback pass (lines 131-150); the
bullet branch drops a single leading character (`line[1:]`). -/
def looseStep (acc : ParseAcc) (rawLine : List Char) : ParseAcc :=
  let line := pyStrip rawLine
  if containsSeq "business".data (lowerChars line) then { acc with sect := some .business }
  else if containsSeq "technical".data (lowerChars line) then
    { acc with sect := some .technical }
  else
    match bulletStart line, acc.sect with
    | true, some s =>
      let insight := pyStrip (line.drop 1)
      if keepInsight insight then pushInsight acc s insight else acc
    | _, _ => acc

def fallbackPass (lines : List (List Char)) : List (List Char) × List (List Char) :=
  let r := lines.foldl looseStep ⟨none, [], []⟩
  (r.business, r.technical)

/-- parse_insights: run the strict pass; if it extracted nothing into either
list, run the fallback pass over the same lines. -/
def parse_insights (raw : List Char) : List (List Char) × List (List Char) :=
  let lines := insightLines raw
  let p := strictPass lines
  if p.1.isEmpty && p.2.isEmpty then fallbackPass lines else p

/-! Theorems. -/

/-- Claim C2: in the timestamp-window limiter, with N recorded timestamps
inside the current window after the purge and cap RATE_LIMIT, the admission
check imposes a non-zero wait iff N is at least the cap, and once the clock
has advanced past the window it imposes zero wait; likewise for the
minute-counter limiter of the relabeling script, whose wait is non-zero iff
the window is still open and the counter has reached RATE_LIMIT_RPM. -/
theorem rate_limit_admit_iff (now : Nat) (times : List Nat) (st : MinuteState) :
    (admitWait now times ≠ 0 ↔ RATE_LIMIT ≤ (purgeOld now times).length) ∧
    ((∀ t ∈ times, t + TIME_WINDOW ≤ now) → admitWait now times = 0) ∧
    (waitMinute now st ≠ 0 ↔
      0 < st.lastReq ∧ now - st.lastReq < 60 ∧ RATE_LIMIT_RPM ≤ st.count) ∧
    (st.lastReq + 60 ≤ now → waitMinute now st = 0) := by
  refine ⟨?_, ?_, ?_, ?_⟩
  · unfold admitWait
    rcases h : purgeOld now times with _ | ⟨oldest, rest⟩
    · simp [h, RATE_LIMIT]
    · by_cases hc : RATE_LIMIT ≤ (oldest :: rest).length
      · simp [hc]
      · simp [hc]
  · intro hall
    have hnil : purgeOld now times = [] := by
      unfold purgeOld
      rw [List.filter_eq_nil_iff]
      intro t ht
      have := hall t ht
      simp
      omega
    unfold admitWait
    rw [hnil]
  · unfold waitMinute
    by_cases hl : 0 < st.lastReq
    · by_cases hw : now - st.lastReq < 60
      · by_cases hc : RATE_LIMIT_RPM ≤ st.count
        · simp [hl, hw, hc]
        · simp [hl, hw, hc]
      · simp [hl, hw]
    · simp [hl]
  · intro hpast
    unfold waitMinute
    have hl : ¬ (st.lastReq > 0) ∨ ¬ (now - st.lastReq < 60) := by omega
    by_cases h0 : 0 < st.lastReq
    · have : ¬ (now - st.lastReq < 60) := by omega
      simp [h0, this]
    · simp [h0]

/-- Witness for C2 at concrete states. -/
theorem rate_limit_admit_iff_witness :
    admitWait 1000 [0, 1, 2] = 0 ∧
    admitWait 10 (List.replicate 100 5) ≠ 0 ∧
    waitMinute 30 ⟨10, 20⟩ ≠ 0 := by
  refine ⟨(rate_limit_admit_iff 1000 [0, 1, 2] ⟨0, 0⟩).2.1 (by decide), ?_, ?_⟩
  · exact (rate_limit_admit_iff 10 (List.replicate 100 5) ⟨0, 0⟩).1.mpr (by decide)
  · exact (rate_limit_admit_iff 30 [] ⟨10, 20⟩).2.2.1.mpr (by decide)

/-- Claim C10: every operation performed on the minute/day request counters
(increment after a request, clamped decrement on 429 rollback, reset) maps
non-negative counters to non-negative counters, and every state reachable
from the initial 0 by a sequence of these operations is non-negative. -/
theorem counter_nonneg_invariant (c : Int) (hc : 0 ≤ c) (op : CounterOp)
    (ops : List CounterOp) :
    0 ≤ applyCounterOp c op ∧ 0 ≤ ops.foldl applyCounterOp 0 := by
  have step : ∀ (x : Int), 0 ≤ x → ∀ o : CounterOp, 0 ≤ applyCounterOp x o := by
    intro x hx o
    cases o with
    | record => simp [applyCounterOp]; omega
    | rollback => exact le_max_left _ _
    | reset => simp [applyCounterOp]
  refine ⟨step c hc op, ?_⟩
  have gen : ∀ (l : List CounterOp) (x : Int), 0 ≤ x → 0 ≤ l.foldl applyCounterOp x := by
    intro l
    induction l with
    | nil => intro x hx; simpa using hx
    | cons o t ih => intro x hx; exact ih _ (step x hx o)
  exact gen ops 0 le_rfl

/-- Witness for C10 at a concrete counter and operation sequence. -/
theorem counter_nonneg_invariant_witness :
    0 ≤ applyCounterOp 0 .record ∧
    0 ≤ ([.record, .rollback, .reset] : List CounterOp).foldl applyCounterOp 0 := by
  exact counter_nonneg_invariant 0 le_rfl .record [.record, .rollback, .reset]

/-- Claim C3: for every response text and batch length, the successful parse
path returns exactly batch-length categories, every returned category is a
member of the closed CATEGORIES set (never null), and the result is the
matched categories truncated to the batch length padded at the tail with
the default "other". -/
theorem label_parser_length (t : String) (n : Nat) :
    (parseCategories t n).length = n ∧
    (∀ c ∈ parseCategories t n, c ∈ CATEGORIES) ∧
    parseCategories t n =
      (extractCats t).take n ++ List.replicate (n - (extractCats t).length) "other" := by
  refine ⟨?_, ?_, ?_⟩
  · simp only [parseCategories, List.length_take, List.length_append,
      List.length_replicate]
    omega
  · intro c hc
    simp only [parseCategories] at hc
    have hc2 := List.take_subset _ _ hc
    rcases List.mem_append.mp hc2 with h | h
    · simp only [extractCats, List.mem_filterMap] at h
      obtain ⟨line, _, hfind⟩ := h
      exact List.mem_of_find?_eq_some hfind
    · have := List.eq_of_mem_replicate h
      subst this
      decide
  · simp only [parseCategories]
    rw [List.take_append_eq_append_take, List.take_replicate, Nat.min_self]

/-- Witness for C3 at a concrete response shorter than the batch. -/
theorem label_parser_length_witness :
    (parseCategories "bug\nquestion" 3).length = 3 ∧ "bug" ∈ CATEGORIES := by
  refine ⟨(label_parser_length "bug\nquestion" 3).1, ?_⟩
  exact (label_parser_length "bug\nquestion" 3).2.1 "bug" (by decide)

/-- Claim C8: the retry delay of attempt `a` equals
INITIAL_RETRY_DELAY * 2 ^ a with INITIAL_RETRY_DELAY = 1 and
MAX_RETRIES = 3, the schedule is non-decreasing in the attempt index, and a
fully transient run indeed sleeps those delays in order. -/
theorem backoff_schedule (a b : Nat) (hab : a ≤ b) (c : Counters) (n : Nat) :
    backoffDelay a = INITIAL_RETRY_DELAY * 2 ^ a ∧
    backoffDelay a ≤ backoffDelay b ∧
    INITIAL_RETRY_DELAY = 1 ∧ MAX_RETRIES = 3 ∧
    (runAttempts n 0 [.exn, .exn, .exn] c).sleeps = [backoffDelay 0, backoffDelay 1] := by
  refine ⟨rfl, ?_, rfl, rfl, rfl⟩
  simp only [backoffDelay]
  exact Nat.mul_le_mul_left _ (Nat.pow_le_pow_right (by norm_num) hab)

/-- Witness for C8 at attempts 0 and 1. -/
theorem backoff_schedule_witness :
    backoffDelay 0 = INITIAL_RETRY_DELAY * 2 ^ 0 ∧ backoffDelay 0 ≤ backoffDelay 1 := by
  have h := backoff_schedule 0 1 (by decide) ⟨0, 0⟩ 1
  exact ⟨h.1, h.2.1⟩

/-- Claim C4 counterexample: a 400 response (a 4xx other than 429) is NOT
failed immediately — with a 400 on every attempt the retry loop issues all
MAX_RETRIES = 3 requests and performs the backoff sleeps [1, 2], refuting
"no further attempts and no backoff sleeps". -/
theorem permanent_error_retry_counterexample :
    (runAttempts 1 0 [.statusOther 400, .statusOther 400, .statusOther 400]
      ⟨0, 0⟩).requests = 3 ∧
    (runAttempts 1 0 [.statusOther 400, .statusOther 400, .statusOther 400]
      ⟨0, 0⟩).sleeps = [1, 2] ∧
    ¬ ((runAttempts 1 0 [.statusOther 400, .statusOther 400, .statusOther 400]
        ⟨0, 0⟩).requests = 1 ∧
       (runAttempts 1 0 [.statusOther 400, .statusOther 400, .statusOther 400]
        ⟨0, 0⟩).sleeps = []) := by
  refine ⟨by decide, by decide, by decide⟩

/-- Claim C4 amended: a 4xx status other than 429 is treated like any other
non-200 status — the call is retried with exponential backoff until the
MAX_RETRIES attempts are exhausted, and only then returns the failure
marker. -/
theorem permanent_error_retry_amended (code n : Nat) (c : Counters)
    (_h1 : 400 ≤ code) (_h2 : code < 500) (_h3 : code ≠ 429) :
    (runAttempts n 0 [.statusOther code, .statusOther code, .statusOther code]
      c).requests = MAX_RETRIES ∧
    (runAttempts n 0 [.statusOther code, .statusOther code, .statusOther code]
      c).sleeps = [backoffDelay 0, backoffDelay 1] ∧
    (runAttempts n 0 [.statusOther code, .statusOther code, .statusOther code]
      c).result = none := by
  exact ⟨rfl, rfl, rfl⟩

/-- Witness for the amended C4 at status 400. -/
theorem permanent_error_retry_amended_witness :
    (runAttempts 2 0 [.statusOther 400, .statusOther 400, .statusOther 400]
      ⟨0, 0⟩).requests = MAX_RETRIES := by
  exact (permanent_error_retry_amended 400 2 ⟨0, 0⟩ (by decide) (by decide) (by decide)).1

/-- Claim C5 counterexample: in summarize_github_issues.query_bart the
timestamp appended for the request is NOT rolled back when the response is
a 429 — starting from an empty request_times list, the list after the 429
is [100], not the pre-request value []. -/
theorem rollback_429_counterexample :
    (query_bart (List.replicate 60 'a') 100 [] ⟨429, none⟩).2 = [100] ∧
    (query_bart (List.replicate 60 'a') 100 [] ⟨429, none⟩).2 ≠ [] := by
  refine ⟨by decide, by decide⟩

/-- Claim C5 amended: in the relabeling script's classify_issues_batch the
429 handler does restore the minute/day counters exactly (the speculative
increment followed by the clamped decrement is the identity), so a run in
which every attempt receives a 429 leaves the counters at their initial
value; the summarization script's query_bart, however, keeps the appended
timestamp in its window after a 429. -/
theorem rollback_429_amended (c : Counters) (n : Nat) :
    rollback429 (bumped c) = c ∧
    (runAttempts n 0 [.status429, .status429, .status429] c).counters = c := by
  obtain ⟨m, d⟩ := c
  refine ⟨?_, ?_⟩
  · simp [rollback429, bumped]
  · simp [runAttempts, rollback429, bumped, MAX_RETRIES]

/-! Lemmas about the scheduler of send_github_issues_to_llm.py. -/

theorem pendingAux_good (l : List Record) :
    ∀ (i : Nat) (p : Nat × Record), p ∈ pendingAux i l →
      ∃ k, k < l.length ∧ p.1 = i + k ∧ l.getD k defaultRecord = p.2 ∧
        needs_relabel_check p.2 = true := by
  induction l with
  | nil => intro i p hp; simp [pendingAux] at hp
  | cons r rest ih =>
    intro i p hp
    by_cases hr : needs_relabel_check r
    · simp only [pendingAux] at hp
      rw [if_pos hr] at hp
      rcases List.mem_cons.mp hp with h | h
      · subst h
        exact ⟨0, by simp, by simp, by simp, hr⟩
      · obtain ⟨k, hk, hpk, hgd, hch⟩ := ih (i + 1) p h
        exact ⟨k + 1, by simpa using Nat.succ_lt_succ hk, by omega, by simpa using hgd, hch⟩
    · simp only [pendingAux] at hp
      rw [if_neg hr] at hp
      obtain ⟨k, hk, hpk, hgd, hch⟩ := ih (i + 1) p hp
      exact ⟨k + 1, by simpa using Nat.succ_lt_succ hk, by omega, by simpa using hgd, hch⟩

theorem needs_relabel_check_none (r : Record) (h : needs_relabel_check r = true) :
    r.category_llm = none := by
  cases hc : r.category_llm with
  | none => rfl
  | some v => simp [needs_relabel_check, hc] at h

theorem pendingPairs_good (records : List Record) :
    ∀ p ∈ pendingPairs records, GoodPair records p := by
  intro p hp
  obtain ⟨k, hk, hpk, hgd, hch⟩ := pendingAux_good records 0 p hp
  simp only [Nat.zero_add] at hpk
  refine ⟨by rw [hpk]; exact hk, by rw [hpk]; exact hgd, needs_relabel_check_none p.2 hch⟩

theorem mem_of_mem_toBatches :
    ∀ (l : List (Nat × Record)) (b : List (Nat × Record)),
      b ∈ toBatches l → ∀ p ∈ b, p ∈ l := by
  intro l
  induction l using toBatches.induct with
  | case1 => intro b hb; simp [toBatches] at hb
  | case2 a =>
    intro b hb p hp
    simp [toBatches] at hb
    subst hb
    simpa using hp
  | case3 a b2 =>
    intro b hb p hp
    simp [toBatches] at hb
    subst hb
    simpa using hp
  | case4 a b2 c rest ih =>
    intro b hb p hp
    simp only [toBatches, List.mem_cons] at hb
    rcases hb with hb | hb
    · subst hb
      simp only [List.mem_cons] at hp
      rcases hp with h | h | h
      · simp [h]
      · simp [h]
      · simp at h; simp [h]
    · have := ih b hb p hp
      simp [this]

theorem modifyAt_length :
    ∀ (l : List Record) (i : Nat) (f : Record → Record),
      (modifyAt l i f).length = l.length := by
  intro l
  induction l with
  | nil => intro i f; rfl
  | cons r rest ih =>
    intro i f
    cases i with
    | zero => simp [modifyAt]
    | succ n => simp [modifyAt, ih]

theorem modifyAt_getD_ne :
    ∀ (l : List Record) (i j : Nat) (f : Record → Record), j ≠ i →
      (modifyAt l i f).getD j defaultRecord = l.getD j defaultRecord := by
  intro l
  induction l with
  | nil => intro i j f _; rfl
  | cons r rest ih =>
    intro i j f h
    cases i with
    | zero =>
      cases j with
      | zero => exact absurd rfl h
      | succ m => simp [modifyAt]
    | succ n =>
      cases j with
      | zero => simp [modifyAt]
      | succ m =>
        simp only [modifyAt, List.getD_cons_succ]
        exact ih n m f (by omega)

theorem modifyAt_getD_eq :
    ∀ (l : List Record) (i : Nat) (f : Record → Record), i < l.length →
      (modifyAt l i f).getD i defaultRecord = f (l.getD i defaultRecord) := by
  intro l
  induction l with
  | nil => intro i f h; simp at h
  | cons r rest ih =>
    intro i f h
    cases i with
    | zero => simp [modifyAt]
    | succ n =>
      simp only [modifyAt, List.getD_cons_succ]
      exact ih n f (by simpa using h)

theorem sameCore_refl (a : Record) : sameCore a a := ⟨rfl, rfl, rfl, rfl⟩

theorem sameCore_setLLM (cat : String) (a b : Record) (h : sameCore a b) :
    sameCore (setLLM cat a) b := h

theorem preserves_refl (l : List Record) : Preserves l l := by
  exact ⟨rfl, fun j _ => ⟨sameCore_refl _, fun _ => rfl⟩⟩

theorem preserves_modifyAt (orig cur : List Record) (idx : Nat) (cat : String)
    (hp : Preserves orig cur) (hidx : idx < orig.length)
    (hnone : (orig.getD idx defaultRecord).category_llm = none) :
    Preserves orig (modifyAt cur idx (setLLM cat)) := by
  obtain ⟨hl, hpt⟩ := hp
  refine ⟨by rw [modifyAt_length, hl], ?_⟩
  intro j hj
  by_cases hji : j = idx
  · subst hji
    rw [modifyAt_getD_eq cur j (setLLM cat) (by omega)]
    refine ⟨sameCore_setLLM cat _ _ (hpt j hj).1, ?_⟩
    intro hsome
    rw [hnone] at hsome
    simp at hsome
  · rw [modifyAt_getD_ne cur idx j (setLLM cat) hji]
    exact hpt j hj

theorem preserves_applyBatchResult (orig : List Record) :
    ∀ (pairs : List ((Nat × Record) × String)) (cur : List Record),
      Preserves orig cur →
      (∀ pr ∈ pairs, GoodPair orig pr.1) →
      Preserves orig (applyBatchResult cur pairs) := by
  intro pairs
  induction pairs with
  | nil => intro cur hp _; simpa [applyBatchResult] using hp
  | cons pr rest ih =>
    intro cur hp hg
    have hg0 : GoodPair orig pr.1 := hg pr (by simp)
    have hstep : Preserves orig (modifyAt cur pr.1.1 (setLLM pr.2)) := by
      apply preserves_modifyAt orig cur pr.1.1 pr.2 hp hg0.1
      rw [hg0.2.1]
      exact hg0.2.2
    have heq : applyBatchResult cur (pr :: rest) =
        applyBatchResult (modifyAt cur pr.1.1 (setLLM pr.2)) rest := by
      simp [applyBatchResult]
    rw [heq]
    exact ih _ hstep (fun q hq => hg q (by simp [hq]))

theorem preserves_stepRecords (orig cur : List Record) (b : List (Nat × Record))
    (res : Option (List String)) (hp : Preserves orig cur)
    (hb : ∀ p ∈ b, GoodPair orig p) :
    Preserves orig (stepRecords cur b res) := by
  cases res with
  | none => simpa [stepRecords] using hp
  | some cats =>
    simp only [stepRecords]
    apply preserves_applyBatchResult orig (b.zip cats) cur hp
    intro pr hpr
    obtain ⟨x, y⟩ := pr
    exact hb x (List.of_mem_zip hpr).1

theorem runBatchLoop_preserves (orig : List Record) :
    ∀ (bs : List (List (Nat × Record))) (env : List (List Resp)) (s : RunState),
      Preserves orig s.records →
      (∀ snap ∈ s.snapshots, Preserves orig snap) →
      (∀ b ∈ bs, ∀ p ∈ b, GoodPair orig p) →
      Preserves orig (runBatchLoop env bs s).records ∧
      ∀ snap ∈ (runBatchLoop env bs s).snapshots, Preserves orig snap := by
  intro bs
  induction bs with
  | nil => intro env s h1 h2 _; exact ⟨h1, h2⟩
  | cons b rest ih =>
    intro env s h1 h2 h3
    simp only [runBatchLoop]
    by_cases hq : RATE_LIMIT_RPD ≤ s.counters.day
    · rw [if_pos hq]
      apply ih
      · exact h1
      · intro snap hsnap
        rcases List.mem_append.mp hsnap with h | h
        · exact h2 snap h
        · rw [List.mem_singleton] at h
          subst h
          exact h1
      · intro b2 hb2 p hp
        exact h3 b2 (by simp [hb2]) p hp
    · rw [if_neg hq]
      have hrecs : Preserves orig (stepState env b s).records := by
        apply preserves_stepRecords orig s.records b _ h1
        intro p hp
        exact h3 b (by simp) p hp
      apply ih
      · exact hrecs
      · intro snap hsnap
        simp only [stepState, List.mem_append] at hsnap
        rcases hsnap with h | h
        · exact h2 snap h
        · rw [List.mem_singleton] at h
          subst h
          exact hrecs
      · intro b2 hb2 p hp
        exact h3 b2 (by simp [hb2]) p hp

theorem runBatchLoop_quota :
    ∀ (bs : List (List (Nat × Record))) (env : List (List Resp)) (s : RunState),
      RATE_LIMIT_RPD ≤ s.counters.day →
      (runBatchLoop env bs s).records = s.records ∧
      (runBatchLoop env bs s).apiRequests = s.apiRequests ∧
      (runBatchLoop env bs s).batchIters = s.batchIters + bs.length ∧
      (runBatchLoop env bs s).counters = s.counters := by
  intro bs
  induction bs with
  | nil => intro env s _; simp [runBatchLoop]
  | cons b rest ih =>
    intro env s h
    simp only [runBatchLoop]
    rw [if_pos h]
    obtain ⟨r1, r2, r3, r4⟩ := ih env.tail
      { s with batchIters := s.batchIters + 1, snapshots := s.snapshots ++ [s.records] }
      (by simpa using h)
    refine ⟨by simpa using r1, by simpa using r2, ?_, by simpa using r4⟩
    simp only [List.length_cons]
    simp at r3
    omega

theorem pendingAux_nil (l : List Record) :
    ∀ i, (∀ r ∈ l, r.category_llm.isSome = true) → pendingAux i l = [] := by
  induction l with
  | nil => intro i _; rfl
  | cons r rest ih =>
    intro i hl
    have hr : needs_relabel_check r = false := by
      simp [needs_relabel_check, hl r (by simp)]
    simp only [pendingAux]
    rw [if_neg (by simp [hr])]
    exact ih (i + 1) (fun x hx => hl x (by simp [hx]))

/-- Claim C1: on the resume path, every batch the scheduler submits consists
only of records that do not yet carry the category_llm result field (records
already carrying it are never submitted again), and every persisted snapshot
contains all records in their original input order, with core fields intact
and previously present results unchanged. -/
theorem resume_no_reprocessing_and_order (records : List Record)
    (env : List (List Resp)) (c0 : Counters) :
    (∀ b ∈ toBatches (pendingPairs records), ∀ p ∈ b, p.2.category_llm = none) ∧
    (∀ snap ∈ (runMain env records c0).snapshots, Preserves records snap) := by
  constructor
  · intro b hb p hp
    exact (pendingPairs_good records p
      (mem_of_mem_toBatches (pendingPairs records) b hb p hp)).2.2
  · intro snap hsnap
    simp only [runMain] at hsnap
    by_cases hemp : (pendingPairs records).isEmpty
    · rw [if_pos hemp] at hsnap
      simp at hsnap
    · rw [if_neg hemp] at hsnap
      have hcond : ∀ b ∈ toBatches (pendingPairs records), ∀ p ∈ b, GoodPair records p := by
        intro b hb p hp
        exact pendingPairs_good records p (mem_of_mem_toBatches _ b hb p hp)
      exact (runBatchLoop_preserves records (toBatches (pendingPairs records)) env
        ⟨records, c0, 0, 0, []⟩ (preserves_refl records) (by simp) hcond).2 snap hsnap

/-- Witness for C1 at a one-record resume run. -/
theorem resume_no_reprocessing_and_order_witness :
    (⟨"t", "b", [], "other", none⟩ : Record).category_llm = none ∧
    Preserves [⟨"t", "b", [], "other", none⟩]
      ((runMain [[Resp.ok "bug"]] [⟨"t", "b", [], "other", none⟩]
        ⟨0, 0⟩).snapshots.headD []) := by
  constructor
  · exact (resume_no_reprocessing_and_order [⟨"t", "b", [], "other", none⟩]
      [[Resp.ok "bug"]] ⟨0, 0⟩).1 [(0, ⟨"t", "b", [], "other", none⟩)] (by decide)
      (0, ⟨"t", "b", [], "other", none⟩) (by decide)
  · exact (resume_no_reprocessing_and_order [⟨"t", "b", [], "other", none⟩]
      [[Resp.ok "bug"]] ⟨0, 0⟩).2 _ (by decide)

/-- Claim C6 counterexample: with the daily counter already at the cap and
two batches pending, the run issues no API request but the batch loop does
NOT stop — it still iterates over both remaining batches, refuting "stops
the batch loop". -/
theorem quota_hard_stop_counterexample :
    (runMain [] [⟨"t", "b", [], "other", none⟩, ⟨"t", "b", [], "other", none⟩,
      ⟨"t", "b", [], "other", none⟩, ⟨"t", "b", [], "other", none⟩]
      ⟨0, 1500⟩).batchIters = 2 ∧
    (runMain [] [⟨"t", "b", [], "other", none⟩, ⟨"t", "b", [], "other", none⟩,
      ⟨"t", "b", [], "other", none⟩, ⟨"t", "b", [], "other", none⟩]
      ⟨0, 1500⟩).batchIters ≠ 0 ∧
    (runMain [] [⟨"t", "b", [], "other", none⟩, ⟨"t", "b", [], "other", none⟩,
      ⟨"t", "b", [], "other", none⟩, ⟨"t", "b", [], "other", none⟩]
      ⟨0, 1500⟩).apiRequests = 0 := by
  refine ⟨by decide, by decide, by decide⟩

/-- Claim C6 amended: once the daily request count has reached the cap
(within the same 24-hour window), no further API request is issued for the
rest of the run; the batch loop, however, continues through every remaining
batch — each iteration returning the failure marker without contacting the
API — and the records are left unchanged, the final summary reporting the
processed counts. -/
theorem quota_hard_stop_amended (env : List (List Resp)) (records : List Record)
    (c0 : Counters) (h : RATE_LIMIT_RPD ≤ c0.day) :
    (runMain env records c0).apiRequests = 0 ∧
    (runMain env records c0).batchIters = (toBatches (pendingPairs records)).length ∧
    (runMain env records c0).records = records := by
  simp only [runMain]
  by_cases hemp : (pendingPairs records).isEmpty
  · rw [if_pos hemp]
    have hnil : pendingPairs records = [] := by
      cases hpp : pendingPairs records with
      | nil => rfl
      | cons x xs => rw [hpp] at hemp; simp at hemp
    simp [hnil, toBatches]
  · rw [if_neg hemp]
    obtain ⟨r1, r2, r3, r4⟩ := runBatchLoop_quota (toBatches (pendingPairs records)) env
      ⟨records, c0, 0, 0, []⟩ (by simpa using h)
    exact ⟨by simpa using r2, by simpa using r3, by simpa using r1⟩

/-- Witness for the amended C6 with the cap already reached. -/
theorem quota_hard_stop_amended_witness :
    (runMain [] [⟨"t", "b", [], "other", none⟩] ⟨0, 1500⟩).apiRequests = 0 := by
  exact (quota_hard_stop_amended [] [⟨"t", "b", [], "other", none⟩] ⟨0, 1500⟩
    (by decide)).1

/-- Claim C7: a second run against a persisted output in which every record
already carries category_llm dispatches zero batches, issues zero API
requests, writes nothing (no snapshots), and leaves the records unchanged. -/
theorem second_run_idempotent (env : List (List Resp)) (records : List Record)
    (c0 : Counters) (h : ∀ r ∈ records, r.category_llm.isSome = true) :
    runMain env records c0 = ⟨records, c0, 0, 0, []⟩ := by
  have hnil : pendingPairs records = [] := pendingAux_nil records 0 h
  simp [runMain, hnil]

/-- Witness for C7 on a fully labeled record list. -/
theorem second_run_idempotent_witness :
    runMain [] [⟨"t", "b", ["bug"], "bug", some "bug"⟩] ⟨0, 0⟩ =
      ⟨[⟨"t", "b", ["bug"], "bug", some "bug"⟩], ⟨0, 0⟩, 0, 0, []⟩ := by
  exact second_run_idempotent [] [⟨"t", "b", ["bug"], "bug", some "bug"⟩] ⟨0, 0⟩
    (by decide)

/-! Lemmas about parse_insights. -/

theorem containsSeq_of_search (w1 w2 : List Char) :
    ∀ l, searchWordWsWord w1 w2 l = true → containsSeq w1 l = true := by
  intro l
  induction l with
  | nil => intro h; simp [searchWordWsWord] at h
  | cons c rest ih =>
    intro h
    simp only [searchWordWsWord, Bool.or_eq_true, Bool.and_eq_true] at h
    simp only [containsSeq, Bool.or_eq_true]
    rcases h with ⟨hpre, _⟩ | h
    · exact Or.inl hpre
    · exact Or.inr (ih h)

theorem search_false_of_contains_false (w1 w2 l : List Char)
    (h : containsSeq w1 l = false) : searchWordWsWord w1 w2 l = false := by
  cases hs : searchWordWsWord w1 w2 l with
  | false => rfl
  | true =>
    rw [containsSeq_of_search w1 w2 l hs] at h
    exact absurd h (by simp)

theorem strictStep_id (line : List Char)
    (hb : containsSeq "business".data (lowerChars (pyStrip line)) = false)
    (ht : containsSeq "technical".data (lowerChars (pyStrip line)) = false) :
    strictStep ⟨none, [], []⟩ line = ⟨none, [], []⟩ := by
  have hsb := search_false_of_contains_false "business".data "insight".data
    (lowerChars (pyStrip line)) hb
  have hst := search_false_of_contains_false "technical".data "insight".data
    (lowerChars (pyStrip line)) ht
  simp only [strictStep]
  rw [if_neg (by simp [hsb]), if_neg (by simp [hst])]
  cases numberedItem (pyStrip line) <;> rfl

theorem strict_fold_nil (lines : List (List Char))
    (h : ∀ line ∈ lines,
      containsSeq "business".data (lowerChars (pyStrip line)) = false ∧
      containsSeq "technical".data (lowerChars (pyStrip line)) = false) :
    lines.foldl strictStep ⟨none, [], []⟩ = ⟨none, [], []⟩ := by
  induction lines with
  | nil => rfl
  | cons l rest ih =>
    have hl := h l (by simp)
    rw [List.foldl_cons, strictStep_id l hl.1 hl.2]
    exact ih (fun x hx => h x (by simp [hx]))

theorem looseStep_id (line : List Char)
    (hb : containsSeq "business".data (lowerChars (pyStrip line)) = false)
    (ht : containsSeq "technical".data (lowerChars (pyStrip line)) = false) :
    looseStep ⟨none, [], []⟩ line = ⟨none, [], []⟩ := by
  simp only [looseStep]
  rw [if_neg (by simp [hb]), if_neg (by simp [ht])]
  cases bulletStart (pyStrip line) <;> rfl

theorem loose_fold_nil (lines : List (List Char))
    (h : ∀ line ∈ lines,
      containsSeq "business".data (lowerChars (pyStrip line)) = false ∧
      containsSeq "technical".data (lowerChars (pyStrip line)) = false) :
    lines.foldl looseStep ⟨none, [], []⟩ = ⟨none, [], []⟩ := by
  induction lines with
  | nil => rfl
  | cons l rest ih =>
    have hl := h l (by simp)
    rw [List.foldl_cons, looseStep_id l hl.1 hl.2]
    exact ih (fun x hx => h x (by simp [hx]))

/-- Claim C9: parse_insights is a total function returning a pair of lists;
a text none of whose lines mentions either section word yields two empty
lists, and the looser bullet-scan fallback pass is used exactly when the
strict numbered-format pass extracted nothing into either list. -/
theorem insight_parser_total (raw : List Char) :
    ((∀ line ∈ insightLines raw,
        containsSeq "business".data (lowerChars (pyStrip line)) = false ∧
        containsSeq "technical".data (lowerChars (pyStrip line)) = false) →
      parse_insights raw = ([], [])) ∧
    (strictPass (insightLines raw) = ([], []) →
      parse_insights raw = fallbackPass (insightLines raw)) ∧
    (strictPass (insightLines raw) ≠ ([], []) →
      parse_insights raw = strictPass (insightLines raw)) := by
  refine ⟨?_, ?_, ?_⟩
  · intro h
    have hstrict : strictPass (insightLines raw) = ([], []) := by
      simp only [strictPass]
      rw [strict_fold_nil (insightLines raw) h]
    have hfall : fallbackPass (insightLines raw) = ([], []) := by
      simp only [fallbackPass]
      rw [loose_fold_nil (insightLines raw) h]
    simp [parse_insights, hstrict, hfall]
  · intro h
    simp [parse_insights, h]
  · intro h
    rcases hq : strictPass (insightLines raw) with ⟨b, t⟩
    rw [hq] at h
    have hcond : (b.isEmpty && t.isEmpty) = false := by
      cases b with
      | cons a l => simp
      | nil =>
        cases t with
        | cons a l => simp
        | nil => exact absurd rfl h
    simp [parse_insights, hq, hcond]

/-- Witness for C9: a headerless text parses to two empty lists, and a text
that feeds the strict pass is returned from the strict pass. -/
theorem insight_parser_total_witness :
    parse_insights "hello world".data = ([], []) ∧
    parse_insights "BUSINESS INSIGHTS:\n1. growth is accelerating fast".data =
      strictPass (insightLines
        "BUSINESS INSIGHTS:\n1. growth is accelerating fast".data) := by
  constructor
  · exact (insight_parser_total "hello world".data).1 (by decide)
  · exact (insight_parser_total
      "BUSINESS INSIGHTS:\n1. growth is accelerating fast".data).2.2 (by decide)
